import Mathlib

/-!
Verification of the `lytra` library against its specification.

The Python sources are shallowly embedded:
* Python iterables that are consumed whole are modelled as `List`;
  one-shot iterators are modelled by explicit state passing (the state is
  the list of elements not yet consumed).
* Python tuples of dynamically typed values are modelled as `List PyVal`.
* Exceptions (`ValueError`, `IndexError`, `StopIteration`) are modelled with
  `Except PyErr`.
* The `None` padding of the safe unzip variants is modelled with `Option`.
* The asyncio rate limiters are modelled as labelled transition systems;
  the semantics of `asyncio.Semaphore`, `asyncio.sleep` and background task
  scheduling follow their documented contracts (a sleep of `t` seconds
  completes no earlier than `t` seconds after it starts).
-/

namespace Lytra

/-- Dynamically typed Python values appearing in the concrete examples. -/
inductive PyVal
  | int (n : Int)
  | str (s : String)
deriving DecidableEq, Repr

/-- Python exceptions raised by the functions of `lytra.lists`. -/
inductive PyErr
  | stopIteration
  | valueError (msg : String)
  | indexError
deriving DecidableEq, Repr

/-! ### `lytra/lists.py` -/

/-- Source `flatten`: `(elem for subitr in itr if subitr is not None for elem in subitr)`.
The returned generator is modelled by the sequence of values it yields when
fully consumed. -/
def flatten {α : Type} : List (Option (List α)) → List α
  | [] => []
  | Option.none :: rest => flatten rest
  | Option.some xs :: rest => xs ++ flatten rest

/-- Source `flattenl`: `[elem for subitr in itr if subitr is not None for elem in subitr]`. -/
def flattenl {α : Type} : List (Option (List α)) → List α
  | [] => []
  | Option.none :: rest => flattenl rest
  | Option.some xs :: rest => xs ++ flattenl rest

/-- Source `first`: `next(iter(itr))`; raises `StopIteration` on an empty input. -/
def first {α : Type} : List α → Except PyErr α
  | [] => Except.error PyErr.stopIteration
  | x :: _ => Except.ok x

/-- Python indexing `elem[i]` on a tuple: raises `IndexError` out of range. -/
def pyIndex {α : Type} (elem : List α) (i : Nat) : Except PyErr α :=
  match elem[i]? with
  | Option.some v => Except.ok v
  | Option.none => Except.error PyErr.indexError

/-- The message of the `ValueError` raised by all unzip variants on empty input. -/
def emptyUnzipMsg : String := "Iterator is empty, cannot unzip"

/-- Source `unzip` on a reusable sequence input. `k = len(first(itr))`
(re-raised as `ValueError` when the input is empty), then one generator
`(elem[i] for elem in itr)` per `i in range(k)`; the generators are modelled
by the columns they yield when fully consumed. -/
def unzip {α : Type} (itr : List (List α)) : Except PyErr (List (List α)) :=
  match first itr with
  | Except.error _ => Except.error (PyErr.valueError emptyUnzipMsg)
  | Except.ok fst =>
    (List.range fst.length).mapM (fun i => itr.mapM (fun elem => pyIndex elem i))

/-- Source `safe_unzip` on a reusable sequence input:
`elem[i] if len(elem) > i else None`, which is exactly `elem[i]?`. -/
def safe_unzip {α : Type} (itr : List (List α)) :
    Except PyErr (List (List (Option α))) :=
  match first itr with
  | Except.error _ => Except.error (PyErr.valueError emptyUnzipMsg)
  | Except.ok fst =>
    Except.ok ((List.range fst.length).map (fun i => itr.map (fun elem => elem[i]?)))

/-- Source `unzipl` on a reusable sequence input: eager list comprehensions,
`[elem[i] for elem in itr]` for each `i in range(k)`. -/
def unzipl {α : Type} (itr : List (List α)) : Except PyErr (List (List α)) :=
  match first itr with
  | Except.error _ => Except.error (PyErr.valueError emptyUnzipMsg)
  | Except.ok fst =>
    (List.range fst.length).mapM (fun i => itr.mapM (fun elem => pyIndex elem i))

/-- Source `safe_unzipl` on a reusable sequence input. -/
def safe_unzipl {α : Type} (itr : List (List α)) :
    Except PyErr (List (List (Option α))) :=
  match first itr with
  | Except.error _ => Except.error (PyErr.valueError emptyUnzipMsg)
  | Except.ok fst =>
    Except.ok ((List.range fst.length).map (fun i => itr.map (fun elem => elem[i]?)))

/-! One-shot iterator semantics for `unzipl`, threading the iterator state
(the list of not-yet-consumed elements) explicitly. -/

/-- One list comprehension `[elem[i] for elem in itr]` over the shared
iterator: it consumes the whole remaining state (stopping with the residual
state if `elem[i]` raises). -/
def columnIter {α : Type} (i : Nat) : List (List α) → Except PyErr (List α) × List (List α)
  | [] => (Except.ok [], [])
  | e :: rest =>
    match e[i]? with
    | Option.none => (Except.error PyErr.indexError, rest)
    | Option.some v =>
      match columnIter i rest with
      | (Except.ok vs, s) => (Except.ok (v :: vs), s)
      | (Except.error err, s) => (Except.error err, s)

/-- The outer `tuple(... for i in range(k))` of `unzipl`, building the
columns one after the other over the same shared iterator state. -/
def columnsIter {α : Type} : List Nat → List (List α) → Except PyErr (List (List α)) × List (List α)
  | [], s => (Except.ok [], s)
  | i :: is, s =>
    match columnIter i s with
    | (Except.ok col, s1) =>
      match columnsIter is s1 with
      | (Except.ok cols, s2) => (Except.ok (col :: cols), s2)
      | (Except.error err, s2) => (Except.error err, s2)
    | (Except.error err, s1) => (Except.error err, s1)

/-- Source `unzipl` applied to a one-shot iterator: `first(itr)` consumes the
first tuple to compute `k`, then the column comprehensions consume whatever
remains of the same iterator. -/
def unziplIter {α : Type} (s : List (List α)) : Except PyErr (List (List α)) :=
  match s with
  | [] => Except.error (PyErr.valueError emptyUnzipMsg)
  | fstTup :: rest => (columnsIter (List.range fstTup.length) rest).1

/-! ### `lytra/typing/unset.py` -/

/-- Identities of the Python objects relevant to `lytra.typing.unset`:
the class object `Unset`, the singleton instance `UNSET = Unset()`,
the singleton `None`, and any other object. Python `is` is identity,
modelled as equality of identities. -/
inductive PyObj
  | unsetClass
  | unsetInstance
  | pyNone
  | other (n : Nat)
deriving DecidableEq, Repr

/-- Source `UNSET = Unset()`: the singleton instance of the class `Unset`. -/
def UNSET : PyObj := PyObj.unsetInstance

/-- Source `is_unset`: the body is `return obj is Unset`, an identity
comparison against the class object `Unset` (not the instance `UNSET`). -/
def is_unset (obj : PyObj) : Bool := obj = PyObj.unsetClass

/-! ### `lytra/asyncio/delaying.py`: `SimpleRateLimiter`

The simple limiter owns `asyncio.Semaphore(max_tasks)` and a `period`.
`acquire` awaits the semaphore; `schedule_release` runs `_delayed_release`
as a background task, which sleeps `period` seconds and then releases the
semaphore. The cooperative execution is a transition system over: the
semaphore counter, the number of suspended acquirers, ghost counters of
completed acquisitions and fired releases, the current time, and the
deadlines of the scheduled background releases. -/

/-- State of a `SimpleRateLimiter` together with its scheduled background
releases under the cooperative scheduler. -/
structure RLState where
  value : Nat
  waiters : Nat
  acquired : Nat
  released : Nat
  now : ℚ
  pending : List ℚ
deriving DecidableEq, Repr

/-- State of `SimpleRateLimiter(max_tasks)` right after construction. -/
def RLState.start (maxTasks : Nat) : RLState :=
  RLState.mk maxTasks 0 0 0 0 []

/-- One scheduler step for `SimpleRateLimiter(max_tasks := N, period := T)`:
a task completes `acquire` immediately when the semaphore is positive or
suspends when it is zero; a suspended task completes once the semaphore is
positive again; `schedule_release` (called at most once per completed
acquire, per the documented contract) registers a background release with
deadline `now + T` (`asyncio.sleep T` completes no earlier than `T` seconds
after it starts); time advances monotonically; a scheduled release fires
once its deadline has passed, incrementing the semaphore. -/
inductive RLStep (N : Nat) (T : ℚ) : RLState → RLState → Prop
  | acquireImmediate (s : RLState) (h : 0 < s.value) :
      RLStep N T s (RLState.mk (s.value - 1) s.waiters (s.acquired + 1) s.released s.now s.pending)
  | acquireWait (s : RLState) (h : s.value = 0) :
      RLStep N T s (RLState.mk s.value (s.waiters + 1) s.acquired s.released s.now s.pending)
  | waiterComplete (s : RLState) (hw : 0 < s.waiters) (hv : 0 < s.value) :
      RLStep N T s (RLState.mk (s.value - 1) (s.waiters - 1) (s.acquired + 1) s.released s.now s.pending)
  | scheduleRelease (s : RLState) (h : s.released + s.pending.length < s.acquired) :
      RLStep N T s (RLState.mk s.value s.waiters s.acquired s.released s.now ((s.now + T) :: s.pending))
  | advance (s : RLState) (d : ℚ) (hd : 0 ≤ d) :
      RLStep N T s (RLState.mk s.value s.waiters s.acquired s.released (s.now + d) s.pending)
  | releaseFire (s : RLState) (d : ℚ) (hmem : d ∈ s.pending) (htime : d ≤ s.now) :
      RLStep N T s (RLState.mk (s.value + 1) s.waiters s.acquired (s.released + 1) s.now (s.pending.erase d))

/-- States reachable from a freshly constructed `SimpleRateLimiter(N, T)`. -/
def RLReachable (N : Nat) (T : ℚ) : RLState → Prop :=
  Relation.ReflTransGen (RLStep N T) (RLState.start N)

/-- Semaphore accounting invariant of the simple limiter: the semaphore
counter plus the completed acquisitions always equals the capacity plus the
fired releases. -/
theorem RLReachable.value_add_acquired {N : Nat} {T : ℚ} {s : RLState}
    (h : RLReachable N T s) : s.value + s.acquired = N + s.released := by
  induction h with
  | refl => simp [RLState.start]
  | tail _ step ih =>
    cases step with
    | acquireImmediate h => simp only at ih ⊢; omega
    | acquireWait h => simpa using ih
    | waiterComplete hw hv => simp only at ih ⊢; omega
    | scheduleRelease h => simpa using ih
    | advance d hd => simpa using ih
    | releaseFire d hmem htime => simp only at ih ⊢; omega

/-- State after `k` immediate acquisitions on a fresh `SimpleRateLimiter(N)`. -/
def afterImmediate (N k : Nat) : RLState :=
  RLState.mk (N - k) 0 k 0 0 []

/-! ### `lytra/asyncio/delaying.py`: `EnsembleRateLimiter`

`EnsembleRateLimiter.acquire` is `for limiter in self.limiters: await
limiter.acquire()`: the loop awaits one constituent at a time; only when the
head of the not-yet-granted suffix grants does the loop move on. The loop
over a list of constituent identifiers is a transition system whose state
splits the caller-supplied list into the granted prefix and the rest. -/

/-- State of one run of `EnsembleRateLimiter.acquire`: constituents already
granted, in grant order, and constituents not yet granted (the head, if any,
is the one currently being awaited; the rest have not been started). -/
structure EnsAcqState where
  granted : List Nat
  remaining : List Nat
deriving DecidableEq, Repr

/-- One step of the acquire loop: the constituent currently awaited grants,
and only then does the loop proceed to the next constituent. -/
inductive EnsStep : EnsAcqState → EnsAcqState → Prop
  | grant (g : List Nat) (c : Nat) (rest : List Nat) :
      EnsStep (EnsAcqState.mk g (c :: rest)) (EnsAcqState.mk (g ++ [c]) rest)

/-- States of the acquire loop reachable on an ensemble over the
caller-supplied constituent list `ls`. -/
def EnsReachable (ls : List Nat) : EnsAcqState → Prop :=
  Relation.ReflTransGen EnsStep (EnsAcqState.mk [] ls)

/-- Source `EnsembleRateLimiter.schedule_release`: the loop
`for limiter in self.limiters: limiter.schedule_release()` emits one
synchronous `schedule_release` call per constituent; the fold accumulates
the constituents in emission order. -/
def scheduleReleaseOrder (ls : List Nat) : List Nat :=
  ls.foldl (fun acc l => acc ++ [l]) []

theorem scheduleReleaseOrder_aux (ls acc : List Nat) :
    ls.foldl (fun a l => a ++ [l]) acc = acc ++ ls := by
  induction ls generalizing acc with
  | nil => simp
  | cons x xs ih => simp [List.foldl_cons, ih, List.append_assoc]

/-! ### `lytra/asyncio/delaying.py` and `awaitable_context.py`: the combined
entry points

`IRateLimiter.__await__` delegates to `_acquire_and_schedule_release`,
whose body is `await self.acquire()` then `self.schedule_release()`.
`AwaitableAsContext.__aenter__` is `await self`, i.e. the same combined
operation; `__aexit__` is a bare `return` (Python returns `None`), and a
context manager suppresses an exception exactly when `__aexit__` returns a
truthy value. The limiter operations a call performs are recorded as a
list of abstract operations in execution order. -/

/-- Abstract limiter operations. -/
inductive LimOp
  | acquire
  | scheduleRelease
deriving DecidableEq, Repr

/-- Source `IRateLimiter._acquire_and_schedule_release`:
`await self.acquire()` then `self.schedule_release()`. -/
def acquireAndScheduleRelease : List LimOp := [LimOp.acquire, LimOp.scheduleRelease]

/-- Source `IRateLimiter.__await__`: returns
`self._acquire_and_schedule_release().__await__()`. -/
def awaitLimiter : List LimOp := acquireAndScheduleRelease

/-- Source `AwaitableAsContext.__aenter__`: `await self`. -/
def aenterOps : List LimOp := awaitLimiter

/-- Source `AwaitableAsContext.__aexit__`: the body is a bare `return`,
performing no limiter operation. -/
def aexitOps : List LimOp := []

/-- Value returned by `AwaitableAsContext.__aexit__`: Python `None`. -/
def aexitReturn : Option Bool := Option.none

/-- Python context-manager semantics: an exception raised inside the scope
is suppressed exactly when `__aexit__` returns a truthy value; `None` is
falsy. -/
def suppressesException (r : Option Bool) : Bool := r.getD false

/-! ### `lytra/asyncio/delaying.py`: the stored `limiters` iterable

`EnsembleRateLimiter.__init__` stores `self.limiters = limiters` without
materializing it. A Python iterable is either a reusable sequence, whose
iteration always yields all elements, or a one-shot iterator, whose
iteration yields the not-yet-consumed elements and leaves it exhausted. -/

/-- A Python iterable: a reusable sequence, or a one-shot iterator holding
its not-yet-consumed elements. -/
inductive PyIterable (α : Type)
  | seq (xs : List α)
  | oneShot (remaining : List α)
deriving DecidableEq, Repr

/-- Iterating a Python iterable to exhaustion: the yielded elements and the
iterable afterwards (a one-shot iterator is left exhausted). -/
def PyIterable.iterate {α : Type} : PyIterable α → List α × PyIterable α
  | PyIterable.seq xs => (xs, PyIterable.seq xs)
  | PyIterable.oneShot xs => (xs, PyIterable.oneShot [])

/-- The `EnsembleRateLimiter` object: its only attribute is `limiters`. -/
structure Ensemble (α : Type) where
  limiters : PyIterable α
deriving DecidableEq, Repr

/-- Source `EnsembleRateLimiter.__init__`: `self.limiters = limiters`,
stored exactly as passed. -/
def Ensemble.start {α : Type} (limiters : PyIterable α) : Ensemble α :=
  Ensemble.mk limiters

/-- Source `EnsembleRateLimiter.acquire`: iterates `self.limiters`, awaiting
each yielded constituent in order; returns the constituents awaited and the
object afterwards (iterating mutates a one-shot iterator in place). -/
def Ensemble.acquire {α : Type} (e : Ensemble α) : List α × Ensemble α :=
  let p := e.limiters.iterate
  (p.1, Ensemble.mk p.2)

/-- Source `EnsembleRateLimiter.schedule_release`: iterates `self.limiters`,
calling `schedule_release` on each yielded constituent in order. -/
def Ensemble.scheduleRelease {α : Type} (e : Ensemble α) : List α × Ensemble α :=
  let p := e.limiters.iterate
  (p.1, Ensemble.mk p.2)

/-! ### Helper lemmas -/

/-- A `mapM` over `Except` succeeds, with output of the input's length, when
`f` succeeds on every element. -/
theorem mapM_ok_of_forall {β γ : Type} (f : β → Except PyErr γ) (l : List β)
    (h : ∀ x ∈ l, ∃ y, f x = Except.ok y) :
    ∃ out, l.mapM f = Except.ok out ∧ out.length = l.length := by
  induction l with
  | nil => exact ⟨[], by rw [List.mapM_nil]; rfl, rfl⟩
  | cons x xs ih =>
    obtain ⟨y, hy⟩ := h x (by simp)
    obtain ⟨out, hout, hlen⟩ := ih (fun z hz => h z (by simp [hz]))
    exact ⟨y :: out, by rw [List.mapM_cons, hy, hout]; rfl, by simp [hlen]⟩

/-- Mapping every element to the empty column gives a block of empty
columns. -/
theorem map_nil_const {α β : Type} (l : List α) :
    l.map (fun _ => ([] : List β)) = List.replicate l.length [] := by
  induction l with
  | nil => rfl
  | cons x xs ih => simp [ih, List.replicate_succ]

/-- A column comprehension over an exhausted iterator yields nothing. -/
theorem columnsIter_exhausted {α : Type} (is : List Nat) :
    columnsIter is ([] : List (List α)) = (Except.ok (is.map fun _ => []), []) := by
  induction is with
  | nil => rfl
  | cons i is ih => simp [columnsIter, columnIter, ih]

/-! ### The claims -/

/-- C1: the spec claims `is_unset(UNSET)` is true and `is_unset(None)` is
false. The code's body is `return obj is Unset`, an identity comparison
against the class object rather than the sentinel instance, so
`is_unset(UNSET)` evaluates to `False` (only the class object itself ever
makes `is_unset` return `True`), contradicting the spec and the function's
own docstring. -/
theorem C1_is_unset_code_behavior :
    is_unset UNSET = false ∧ is_unset PyObj.pyNone = false
      ∧ is_unset PyObj.unsetClass = true := by
  decide

/-- C8: `flatten` and `flattenl` skip `None` entries and yield all elements
of the non-`None` sub-iterables in order; in particular
`flatten([[1,2], None, [3]])` yields exactly `1, 2, 3`. -/
theorem C8_flatten_skips_none (itr : List (Option (List PyVal))) :
    flatten itr = (itr.filterMap id).flatten
  ∧ flattenl itr = flatten itr
  ∧ flatten [Option.some [PyVal.int 1, PyVal.int 2], Option.none,
      Option.some [PyVal.int 3]] = [PyVal.int 1, PyVal.int 2, PyVal.int 3] := by
  refine ⟨?_, ?_, rfl⟩
  · induction itr with
    | nil => rfl
    | cons x rest ih => cases x <;> simp [flatten, ih]
  · induction itr with
    | nil => rfl
    | cons x rest ih => cases x <;> simp [flatten, flattenl, ih]

/-- C9: `EnsembleRateLimiter.__init__` stores the `limiters` argument
exactly as passed, without materializing it; constructed from a one-shot
iterator, the first `acquire` awaits all constituents and exhausts the
iterator, after which every `acquire` and `schedule_release` iterates an
exhausted iterator, awaiting no constituent and scheduling no release,
while a reusable sequence keeps working. -/
theorem C9_ensemble_one_shot (ls : List Nat) :
    (∀ it : PyIterable Nat, (Ensemble.start it).limiters = it)
  ∧ (Ensemble.start (PyIterable.oneShot ls)).acquire
      = (ls, Ensemble.start (PyIterable.oneShot []))
  ∧ (Ensemble.start (PyIterable.oneShot ([] : List Nat))).acquire
      = ([], Ensemble.start (PyIterable.oneShot []))
  ∧ (Ensemble.start (PyIterable.oneShot ([] : List Nat))).scheduleRelease
      = ([], Ensemble.start (PyIterable.oneShot []))
  ∧ (Ensemble.start (PyIterable.seq ls)).acquire
      = (ls, Ensemble.start (PyIterable.seq ls)) :=
  ⟨fun _ => rfl, rfl, rfl, rfl, rfl⟩

/-- C5: awaiting a limiter performs `acquire` followed immediately by
`schedule_release`; entering the async scope performs this same combined
operation; exiting performs no limiter operation and never suppresses an
exception (Python suppresses exactly when `__aexit__` returns truthy, and
it returns `None`). On the simple-limiter transition system, the combined
operation from a state with free capacity is the acquire step followed
immediately by the schedule-release step. -/
theorem C5_combined_await :
    awaitLimiter = [LimOp.acquire, LimOp.scheduleRelease]
  ∧ aenterOps = awaitLimiter
  ∧ aexitOps = []
  ∧ suppressesException aexitReturn = false
  ∧ (∀ (N : Nat) (T : ℚ) (s : RLState), 0 < s.value →
      s.released + s.pending.length ≤ s.acquired →
      RLStep N T s
        (RLState.mk (s.value - 1) s.waiters (s.acquired + 1) s.released s.now s.pending)
      ∧ RLStep N T
        (RLState.mk (s.value - 1) s.waiters (s.acquired + 1) s.released s.now s.pending)
        (RLState.mk (s.value - 1) s.waiters (s.acquired + 1) s.released s.now
          ((s.now + T) :: s.pending))) := by
  refine ⟨rfl, rfl, rfl, rfl, fun N T s hv hc => ⟨RLStep.acquireImmediate s hv, ?_⟩⟩
  exact RLStep.scheduleRelease
    (RLState.mk (s.value - 1) s.waiters (s.acquired + 1) s.released s.now s.pending)
    (by simpa using Nat.lt_succ_of_le hc)

/-- Witness for C5 at a fresh `SimpleRateLimiter(1, 1)`. -/
theorem C5_combined_await_witness :
    RLStep 1 1 (RLState.start 1)
      (RLState.mk ((RLState.start 1).value - 1) (RLState.start 1).waiters
        ((RLState.start 1).acquired + 1) (RLState.start 1).released
        (RLState.start 1).now (RLState.start 1).pending)
    ∧ RLStep 1 1
      (RLState.mk ((RLState.start 1).value - 1) (RLState.start 1).waiters
        ((RLState.start 1).acquired + 1) (RLState.start 1).released
        (RLState.start 1).now (RLState.start 1).pending)
      (RLState.mk ((RLState.start 1).value - 1) (RLState.start 1).waiters
        ((RLState.start 1).acquired + 1) (RLState.start 1).released
        (RLState.start 1).now (((RLState.start 1).now + 1) :: (RLState.start 1).pending)) :=
  C5_combined_await.2.2.2.2 1 1 (RLState.start 1) (by decide) (by decide)

/-- C4: `EnsembleRateLimiter.acquire` awaits the constituents strictly
sequentially in the caller-supplied order — in every state of the acquire
loop, the granted constituents followed by the not-yet-granted ones are
exactly the supplied list, so a constituent is awaited only after every
earlier one has granted — the loop finishes only once every constituent has
granted in list order, and `schedule_release` emits the constituents'
`schedule_release` calls in that same order. -/
theorem C4_ensemble_order (ls : List Nat) :
    (∀ st, EnsReachable ls st → st.granted ++ st.remaining = ls)
  ∧ (∀ st, EnsReachable ls st → st.remaining = [] → st.granted = ls)
  ∧ scheduleReleaseOrder ls = ls := by
  have key : ∀ st, EnsReachable ls st → st.granted ++ st.remaining = ls := by
    intro st h
    induction h with
    | refl => rfl
    | tail _ step ih =>
      cases step with
      | grant g c rest => simpa [List.append_assoc] using ih
  refine ⟨key, fun st h he => ?_, ?_⟩
  · have hk := key st h
    simpa [he] using hk
  · simpa [scheduleReleaseOrder] using scheduleReleaseOrder_aux ls []

/-- Witness for C4 on the two-constituent ensemble, at the initial loop
state. -/
theorem C4_ensemble_order_witness :
    (EnsAcqState.mk [] [1, 2]).granted ++ (EnsAcqState.mk [] [1, 2]).remaining = [1, 2] :=
  (C4_ensemble_order [1, 2]).1 (EnsAcqState.mk [] [1, 2]) Relation.ReflTransGen.refl

/-- C2: on `SimpleRateLimiter(max_tasks := N)` at most `N` acquisitions are
outstanding in every reachable state; on a fresh limiter `N` acquisitions
complete immediately one after the other, the state with `N` immediate
acquisitions is reachable, and from any reachable state with `N`
outstanding acquisitions no step can complete a further acquisition (the
`(N+1)`-th completes only after some release fires). -/
theorem C2_at_most_max_tasks (N : Nat) (T : ℚ) :
    (∀ s, RLReachable N T s → s.acquired ≤ N + s.released)
  ∧ (∀ k, k < N → RLStep N T (afterImmediate N k) (afterImmediate N (k + 1)))
  ∧ RLReachable N T (afterImmediate N N)
  ∧ (∀ s u, RLReachable N T s → s.acquired = N + s.released →
      RLStep N T s u → u.acquired = s.acquired) := by
  have step2 : ∀ k, k < N → RLStep N T (afterImmediate N k) (afterImmediate N (k + 1)) := by
    intro k hk
    have hpos : 0 < (afterImmediate N k).value := by
      simp only [afterImmediate]
      omega
    have h := @RLStep.acquireImmediate N T (afterImmediate N k) hpos
    have he : N - k - 1 = N - (k + 1) := by omega
    simpa [afterImmediate, he] using h
  have reach : ∀ k, k ≤ N → RLReachable N T (afterImmediate N k) := by
    intro k
    induction k with
    | zero =>
      intro _
      have h0 : afterImmediate N 0 = RLState.start N := by
        simp [afterImmediate, RLState.start]
      rw [RLReachable, h0]
    | succ k ih =>
      intro hk
      exact Relation.ReflTransGen.tail (ih (by omega)) (step2 k (by omega))
  refine ⟨fun s hs => ?_, step2, reach N (le_refl N), fun s u hs heq hstep => ?_⟩
  · have hinv := hs.value_add_acquired
    omega
  · have hinv := hs.value_add_acquired
    have hv : s.value = 0 := by omega
    cases hstep with
    | acquireImmediate h => exact absurd h (by omega)
    | acquireWait h => rfl
    | waiterComplete hw hv2 => exact absurd hv2 (by omega)
    | scheduleRelease h => rfl
    | advance d hd => rfl
    | releaseFire d hmem htime => rfl

/-- Witness for C2 at `max_tasks = 2`, `period = 1`, at the initial state. -/
theorem C2_at_most_max_tasks_witness :
    (RLState.start 2).acquired ≤ 2 + (RLState.start 2).released :=
  (C2_at_most_max_tasks 2 1).1 (RLState.start 2) Relation.ReflTransGen.refl

/-- C3: for `SimpleRateLimiter` with period `T`, the only step that makes a
unit of capacity available again is the firing of a scheduled background
release whose deadline has passed; every deadline registered by
`schedule_release` is the schedule time plus `T`; and time is monotone — so
capacity scheduled for release at time `t` is unavailable to new acquirers
before `t + T` and becomes available at or after `t + T`, with no external
event triggering it early. -/
theorem C3_release_timing (N : Nat) (T : ℚ) :
    (∀ s u, RLStep N T s u → s.value < u.value →
      u.released = s.released + 1
        ∧ ∃ d, d ∈ s.pending ∧ d ≤ s.now ∧ u.pending = s.pending.erase d)
  ∧ (∀ s u, RLStep N T s u → s.pending.length < u.pending.length →
      u.pending = (s.now + T) :: s.pending)
  ∧ (∀ s u, RLStep N T s u → s.now ≤ u.now) := by
  refine ⟨fun s u hstep hv => ?_, fun s u hstep hp => ?_, fun s u hstep => ?_⟩
  · cases hstep with
    | acquireImmediate h => exact absurd hv (by simp only; omega)
    | acquireWait h => exact absurd hv (by simp)
    | waiterComplete hw hv2 => exact absurd hv (by simp only; omega)
    | scheduleRelease h => exact absurd hv (by simp)
    | advance d hd => exact absurd hv (by simp)
    | releaseFire d hmem htime => exact ⟨rfl, d, hmem, htime, rfl⟩
  · cases hstep with
    | acquireImmediate h => exact absurd hp (by simp)
    | acquireWait h => exact absurd hp (by simp)
    | waiterComplete hw hv2 => exact absurd hp (by simp)
    | scheduleRelease h => rfl
    | advance d hd => exact absurd hp (by simp)
    | releaseFire d hmem htime =>
      have := List.length_erase_of_mem hmem
      exact absurd hp (by simp only [this]; omega)
  · cases hstep with
    | acquireImmediate h => exact le_refl _
    | acquireWait h => exact le_refl _
    | waiterComplete hw hv2 => exact le_refl _
    | scheduleRelease h => exact le_refl _
    | advance d hd => simpa using hd
    | releaseFire d hmem htime => exact le_refl _

/-- Witness for C3: a concrete time-advance step on `SimpleRateLimiter(1, 1)`
does not decrease the clock. -/
theorem C3_release_timing_witness :
    (RLState.start 1).now
      ≤ (RLState.mk (RLState.start 1).value (RLState.start 1).waiters
          (RLState.start 1).acquired (RLState.start 1).released
          ((RLState.start 1).now + 5) (RLState.start 1).pending).now :=
  (C3_release_timing 1 1).2.2 (RLState.start 1) _
    (RLStep.advance (RLState.start 1) 5 (by norm_num))

/-- C6: every unzip variant raises `ValueError` on an empty input, and on a
non-empty input of uniform-length tuples none of them fails and the output
arity equals the length of the first tuple. -/
theorem C6_unzip_empty_and_uniform (t : List PyVal) (rest : List (List PyVal))
    (huni : ∀ e ∈ t :: rest, e.length = t.length) :
    unzip ([] : List (List PyVal)) = Except.error (PyErr.valueError emptyUnzipMsg)
  ∧ unzipl ([] : List (List PyVal)) = Except.error (PyErr.valueError emptyUnzipMsg)
  ∧ safe_unzip ([] : List (List PyVal)) = Except.error (PyErr.valueError emptyUnzipMsg)
  ∧ safe_unzipl ([] : List (List PyVal)) = Except.error (PyErr.valueError emptyUnzipMsg)
  ∧ (∃ out, unzip (t :: rest) = Except.ok out ∧ out.length = t.length)
  ∧ (∃ out, unzipl (t :: rest) = Except.ok out ∧ out.length = t.length)
  ∧ (∃ out, safe_unzip (t :: rest) = Except.ok out ∧ out.length = t.length)
  ∧ (∃ out, safe_unzipl (t :: rest) = Except.ok out ∧ out.length = t.length) := by
  have hcol : ∀ i ∈ List.range t.length,
      ∃ col, (t :: rest).mapM (fun elem => pyIndex elem i) = Except.ok col := by
    intro i hi
    have hik : i < t.length := List.mem_range.mp hi
    have hel : ∀ e ∈ t :: rest, ∃ y, pyIndex e i = Except.ok y := by
      intro e he
      have hlen : i < e.length := by rw [huni e he]; exact hik
      have hg : e[i]? = Option.some e[i] := List.getElem?_eq_getElem hlen
      exact ⟨e[i], by simp [pyIndex, hg]⟩
    obtain ⟨col, hc, -⟩ := mapM_ok_of_forall (fun elem => pyIndex elem i) (t :: rest) hel
    exact ⟨col, hc⟩
  obtain ⟨out, hout, hlen⟩ := mapM_ok_of_forall
    (fun i => (t :: rest).mapM (fun elem => pyIndex elem i)) (List.range t.length) hcol
  have hmain : (List.range t.length).mapM
      (fun i => (t :: rest).mapM (fun elem => pyIndex elem i)) = Except.ok out := hout
  have hlen2 : out.length = t.length := by simpa using hlen
  refine ⟨rfl, rfl, rfl, rfl, ⟨out, ?_, hlen2⟩, ⟨out, ?_, hlen2⟩, ?_, ?_⟩
  · simpa [unzip, first] using hmain
  · simpa [unzipl, first] using hmain
  · exact ⟨_, rfl, by simp [safe_unzip, first]⟩
  · exact ⟨_, rfl, by simp [safe_unzipl, first]⟩

/-- Witness for C6 on `[(1, "a"), (2, "b")]`. -/
theorem C6_unzip_empty_and_uniform_witness :
    unzip ([] : List (List PyVal)) = Except.error (PyErr.valueError emptyUnzipMsg)
  ∧ unzipl ([] : List (List PyVal)) = Except.error (PyErr.valueError emptyUnzipMsg)
  ∧ safe_unzip ([] : List (List PyVal)) = Except.error (PyErr.valueError emptyUnzipMsg)
  ∧ safe_unzipl ([] : List (List PyVal)) = Except.error (PyErr.valueError emptyUnzipMsg)
  ∧ (∃ out, unzip [[PyVal.int 1, PyVal.str ("a")], [PyVal.int 2, PyVal.str ("b")]]
      = Except.ok out ∧ out.length = [PyVal.int 1, PyVal.str ("a")].length)
  ∧ (∃ out, unzipl [[PyVal.int 1, PyVal.str ("a")], [PyVal.int 2, PyVal.str ("b")]]
      = Except.ok out ∧ out.length = [PyVal.int 1, PyVal.str ("a")].length)
  ∧ (∃ out, safe_unzip [[PyVal.int 1, PyVal.str ("a")], [PyVal.int 2, PyVal.str ("b")]]
      = Except.ok out ∧ out.length = [PyVal.int 1, PyVal.str ("a")].length)
  ∧ (∃ out, safe_unzipl [[PyVal.int 1, PyVal.str ("a")], [PyVal.int 2, PyVal.str ("b")]]
      = Except.ok out ∧ out.length = [PyVal.int 1, PyVal.str ("a")].length) :=
  C6_unzip_empty_and_uniform [PyVal.int 1, PyVal.str ("a")]
    [[PyVal.int 2, PyVal.str ("b")]] (by decide)

/-- C7: the safe unzip variants pad missing trailing elements with `None`:
whenever the tuple at position `j` is shorter than the arity-relevant index
`i` allows, the `i`-th output column holds `None` at position `j`; in
particular `safe_unzip([(1, "a"), (2,)])` has `["a", None]` as its second
output sequence. -/
theorem C7_safe_unzip_pads (itr : List (List PyVal)) (t : List PyVal) (i j : Nat)
    (hhead : itr.head? = Option.some t) (hik : i < t.length) (hj : j < itr.length)
    (hshort : (itr.get ⟨j, hj⟩).length ≤ i) :
    (∃ cols, safe_unzip itr = Except.ok cols ∧ safe_unzipl itr = Except.ok cols
      ∧ cols.length = t.length
      ∧ (cols[i]?).bind (fun col => col[j]?) = Option.some Option.none)
  ∧ safe_unzipl [[PyVal.int 1, PyVal.str ("a")], [PyVal.int 2]]
      = Except.ok [[Option.some (PyVal.int 1), Option.some (PyVal.int 2)],
          [Option.some (PyVal.str ("a")), Option.none]]
  ∧ safe_unzip [[PyVal.int 1, PyVal.str ("a")], [PyVal.int 2]]
      = Except.ok [[Option.some (PyVal.int 1), Option.some (PyVal.int 2)],
          [Option.some (PyVal.str ("a")), Option.none]] := by
  refine ⟨?_, rfl, rfl⟩
  match itr, hhead with
  | t0 :: rest, hhead =>
    have ht : t0 = t := by simpa using hhead
    subst ht
    refine ⟨(List.range t0.length).map (fun i => (t0 :: rest).map (fun elem => elem[i]?)),
      by simp [safe_unzip, first], by simp [safe_unzipl, first], by simp, ?_⟩
    have h1 : ((List.range t0.length).map
        (fun i => (t0 :: rest).map (fun elem => elem[i]?)))[i]?
        = Option.some ((t0 :: rest).map (fun elem => elem[i]?)) := by
      rw [List.getElem?_map, List.getElem?_range hik]
      rfl
    rw [h1]
    have hshort2 : ((t0 :: rest)[j]).length ≤ i := hshort
    show ((t0 :: rest).map (fun elem => elem[i]?))[j]? = Option.some Option.none
    have h3 : ((t0 :: rest).map (fun elem => elem[i]?))[j]?
        = Option.some ((t0 :: rest)[j][i]?) := by
      rw [List.getElem?_map, List.getElem?_eq_getElem hj]
      rfl
    rw [h3, List.getElem?_eq_none hshort2]

/-- Witness for C7 on `[(1, "a"), (2,)]` with `i = 1` (second column) and
`j = 1` (the short tuple `(2,)`). -/
theorem C7_safe_unzip_pads_witness :
    (∃ cols, safe_unzip [[PyVal.int 1, PyVal.str ("a")], [PyVal.int 2]] = Except.ok cols
      ∧ safe_unzipl [[PyVal.int 1, PyVal.str ("a")], [PyVal.int 2]] = Except.ok cols
      ∧ cols.length = [PyVal.int 1, PyVal.str ("a")].length
      ∧ (cols[1]?).bind (fun col => col[1]?) = Option.some Option.none)
  ∧ safe_unzipl [[PyVal.int 1, PyVal.str ("a")], [PyVal.int 2]]
      = Except.ok [[Option.some (PyVal.int 1), Option.some (PyVal.int 2)],
          [Option.some (PyVal.str ("a")), Option.none]]
  ∧ safe_unzip [[PyVal.int 1, PyVal.str ("a")], [PyVal.int 2]]
      = Except.ok [[Option.some (PyVal.int 1), Option.some (PyVal.int 2)],
          [Option.some (PyVal.str ("a")), Option.none]] :=
  C7_safe_unzip_pads [[PyVal.int 1, PyVal.str ("a")], [PyVal.int 2]]
    [PyVal.int 1, PyVal.str ("a")] 1 1 rfl (by decide) (by decide) (by decide)

/-- C10: applied to a one-shot iterator, `unzipl` consumes the first tuple
via `first` to determine the arity, so its values are absent from the
output; the first column is built from the remainder of the iterator and
every later column from the then-exhausted iterator, hence is empty; in
particular `unzipl(iter([(1, "a"), (2, "b")]))` returns `([2], [])`. -/
theorem C10_unzipl_one_shot (t : List PyVal) (rest : List (List PyVal))
    (col0 : List PyVal) (k : Nat) (hk : t.length = k + 1)
    (h0 : columnIter 0 rest = (Except.ok col0, [])) :
    unziplIter (t :: rest) = Except.ok (col0 :: List.replicate k [])
  ∧ unziplIter [[PyVal.int 1, PyVal.str ("a")], [PyVal.int 2, PyVal.str ("b")]]
      = Except.ok [[PyVal.int 2], []] := by
  constructor
  · show (columnsIter (List.range t.length) rest).1 = _
    rw [hk, List.range_succ_eq_map]
    simp [columnsIter, h0, columnsIter_exhausted, Function.comp_def, map_nil_const]
  · rfl

/-- Witness for C10 on the iterator over `[(1, "a"), (2, "b")]`. -/
theorem C10_unzipl_one_shot_witness :
    unziplIter [[PyVal.int 1, PyVal.str ("a")], [PyVal.int 2, PyVal.str ("b")]]
      = Except.ok ([PyVal.int 2] :: List.replicate 1 [])
  ∧ unziplIter [[PyVal.int 1, PyVal.str ("a")], [PyVal.int 2, PyVal.str ("b")]]
      = Except.ok [[PyVal.int 2], []] :=
  C10_unzipl_one_shot [PyVal.int 1, PyVal.str ("a")] [[PyVal.int 2, PyVal.str ("b")]]
    [PyVal.int 2] 1 rfl rfl

end Lytra
